import Mathlib

/-!
Verification of the seller-apis repository (src/seller.py, src/market.py):
a shallow embedding of the reconciliation, chunking, pagination and upload
logic, followed by theorems settling the frozen claims about it.

Supplier records come from the downloaded spreadsheet: each row has a code
(column "Код"), a quantity string (column "Количество") and a price string
(column "Цена").  Offer ids are plain strings fetched from a marketplace.
-/

namespace SellerApis

/-- A supplier spreadsheet row, as consumed by create_stocks / create_prices:
`watch.get("Код")`, `watch.get("Количество")`, `watch.get("Цена")`
(seller.py lines 236-246, 282-289; market.py lines 235-257, 306-320).
The code and quantity are used through `str(...)`, so both are strings here. -/
structure SupplierRecord where
  code : String
  quantity : String
  price : String
deriving DecidableEq

/-- One element of the list built by seller.py create_stocks:
`{"offer_id": ..., "stock": ...}` (seller.py lines 245, 249). -/
structure StockItem where
  offer_id : String
  stock : Int
deriving DecidableEq

/-- One element of the `items` field of a market.py stock entry
(market.py lines 248-254). -/
structure MarketStockEntry where
  count : Int
  type : String
  updatedAt : String
deriving DecidableEq

/-- One element of the list built by market.py create_stocks
(market.py lines 244-256). -/
structure MarketStockItem where
  sku : String
  warehouseId : Int
  items : List MarketStockEntry
deriving DecidableEq

/-- One element of the list built by seller.py create_prices
(seller.py lines 284-290). -/
structure SellerPrice where
  auto_action_enabled : String
  currency_code : String
  offer_id : String
  old_price : String
  price : String
deriving DecidableEq

/-- The `price` sub-object of a market.py price entry (market.py lines 311-316). -/
structure MarketPriceValue where
  value : Int
  currencyId : String
deriving DecidableEq

/-- One element of the list built by market.py create_prices
(market.py lines 308-319). -/
structure MarketPrice where
  id : String
  price : MarketPriceValue
deriving DecidableEq

/-- The numeric value of a digit-character list read in base 10. -/
def pyDigitsVal (l : List Char) : Nat :=
  l.foldl (fun n c => 10 * n + (c.toNat - 48)) 0

/-- A nonempty all-digit character list parsed to a Nat, `none` otherwise. -/
def pyDigits? (l : List Char) : Option Nat :=
  if !l.isEmpty && l.all Char.isDigit then some (pyDigitsVal l) else none

/-- Python's `int(s)` on a string: strips surrounding whitespace, accepts an
optional sign followed by one or more decimal digits, raises ValueError
otherwise (modelled as `none`).  Used by create_stocks
(`int(watch.get("Количество"))`, seller.py line 244, market.py line 243) and
market.py create_prices (line 312). -/
def pyInt (s : String) : Option Int :=
  let t := ((s.data.dropWhile Char.isWhitespace).reverse.dropWhile Char.isWhitespace).reverse
  match t with
  | '+' :: rest => (pyDigits? rest).map Int.ofNat
  | '-' :: rest => (pyDigits? rest).map fun n => -(n : Int)
  | _ => (pyDigits? t).map Int.ofNat

/-- The count-resolution branch of both create_stocks functions
(seller.py lines 238-244, market.py lines 237-243):
`count = str(watch.get("Количество"))`, then `">10"` maps to 100, `"1"` maps
to 0, and anything else goes through `int(...)`, which can raise (`none`). -/
def stockCount (count : String) : Option Int :=
  if count = ">10" then some 100
  else if count = "1" then some 0
  else pyInt count

/-- The first loop shared by both create_stocks functions (seller.py lines
236-246, market.py lines 235-257): walk the supplier records; when a record's
code is in the current offer-id list, resolve its count, emit an entry built
by `emit`, and remove that code from the list (`offer_ids.remove`, which
drops the first occurrence).  Returns the emitted entries in record order
together with the final state of the caller-supplied offer-id list, or `none`
when `int(...)` raises. -/
def stocksLoopCore {β : Type} (emit : String → Int → β) :
    List SupplierRecord → List String → Option (List β × List String)
  | [], offer_ids => some ([], offer_ids)
  | w :: ws, offer_ids =>
    if w.code ∈ offer_ids then
      match stockCount w.quantity with
      | none => none
      | some c =>
        match stocksLoopCore emit ws (offer_ids.erase w.code) with
        | none => none
        | some (st, rem) => some (emit w.code c :: st, rem)
    else stocksLoopCore emit ws offer_ids

/-- seller.py create_stocks (lines 206-250): the matching loop above with
`emit = {"offer_id": code, "stock": stock}`, then a zero-count entry for
every offer id still in the (mutated) list.  The second component is the
final state of the caller's offer_ids list, which the zero-fill loop does
not change further. -/
def create_stocks (watch_remnants : List SupplierRecord) (offer_ids : List String) :
    Option (List StockItem × List String) :=
  (stocksLoopCore (fun code stock => ⟨code, stock⟩) watch_remnants offer_ids).map
    fun p => (p.1 ++ p.2.map (fun offer_id => ⟨offer_id, 0⟩), p.2)

/-- The stock entry built by market.py create_stocks for a given sku and
count (market.py lines 244-256 and 259-272): warehouse id plus a singleton
`items` list carrying the count, the literal type "FIT" and the run's date. -/
def marketStockItem (warehouse_id : Int) (date : String) (sku : String) (count : Int) :
    MarketStockItem :=
  ⟨sku, warehouse_id, [⟨count, "FIT", date⟩]⟩

/-- market.py create_stocks (lines 188-273): same structure as the seller
version, with the market payload shape and a zero-count entry for every
remaining offer id.  `date` models the single `datetime.utcnow()` string
computed at line 234. -/
def market_create_stocks (watch_remnants : List SupplierRecord) (offer_ids : List String)
    (warehouse_id : Int) (date : String) :
    Option (List MarketStockItem × List String) :=
  (stocksLoopCore (marketStockItem warehouse_id date) watch_remnants offer_ids).map
    fun p => (p.1 ++ p.2.map (fun offer_id => marketStockItem warehouse_id date offer_id 0), p.2)

/-- Python's `s.split(sep)` on a one-character separator, over the character
list: always returns a nonempty list of components. -/
def pySplit (sep : Char) : List Char → List (List Char)
  | [] => [[]]
  | c :: cs =>
    let rest := pySplit sep cs
    if c = sep then [] :: rest
    else (c :: rest.headD []) :: rest.tail

/-- seller.py price_conversion (lines 295-308):
`re.sub("[^0-9]", "", price.split(".")[0])` — take the component before the
first ".", then delete every character outside 0-9. -/
def price_conversion (price : String) : String :=
  String.mk (((pySplit '.' price.data).headD []).filter Char.isDigit)

/-- The price entry built by seller.py create_prices (lines 284-290). -/
def sellerPriceOf (w : SupplierRecord) : SellerPrice :=
  ⟨"UNKNOWN", "RUB", w.code, "0", price_conversion w.price⟩

/-- The loop of seller.py create_prices (lines 281-292), carried out with an
explicit accumulator and explicit offer-id list state: the loop only tests
membership and appends, it never mutates offer_ids. -/
def pricesLoopSt :
    List SupplierRecord → List SellerPrice → List String → List SellerPrice × List String
  | [], prices, offer_ids => (prices, offer_ids)
  | w :: ws, prices, offer_ids =>
    if w.code ∈ offer_ids then pricesLoopSt ws (prices ++ [sellerPriceOf w]) offer_ids
    else pricesLoopSt ws prices offer_ids

/-- seller.py create_prices with the final offer-id list state made explicit. -/
def create_pricesSt (watch_remnants : List SupplierRecord) (offer_ids : List String) :
    List SellerPrice × List String :=
  pricesLoopSt watch_remnants [] offer_ids

/-- seller.py create_prices (lines 253-292): the produced price list. -/
def create_prices (watch_remnants : List SupplierRecord) (offer_ids : List String) :
    List SellerPrice :=
  (create_pricesSt watch_remnants offer_ids).1

/-- The price entry built by market.py create_prices (lines 308-319):
`int(price_conversion(watch.get("Цена")))` can raise when the converted
string is empty, hence the Option. -/
def marketPriceOf (w : SupplierRecord) : Option MarketPrice :=
  (pyInt (price_conversion w.price)).map fun v => ⟨w.code, ⟨v, "RUR"⟩⟩

/-- The loop of market.py create_prices (lines 305-321). -/
def marketPricesLoop : List SupplierRecord → List String → Option (List MarketPrice)
  | [], _ => some []
  | w :: ws, offer_ids =>
    if w.code ∈ offer_ids then
      match marketPriceOf w with
      | none => none
      | some p => (marketPricesLoop ws offer_ids).map (fun ps => p :: ps)
    else marketPricesLoop ws offer_ids

/-- market.py create_prices (lines 276-321). -/
def market_create_prices (watch_remnants : List SupplierRecord) (offer_ids : List String) :
    Option (List MarketPrice) :=
  marketPricesLoop watch_remnants offer_ids

/-- seller.py divide (lines 311-317): `for i in range(0, len(lst), n):
yield lst[i : i + n]`.  Modelled for a positive step n, the only way the
program calls it (a step of 0 makes `range` itself raise in Python). -/
def divide {α : Type} (lst : List α) (n : Nat) : List (List α) :=
  if h : lst.isEmpty ∨ n = 0 then []
  else lst.take n :: divide (lst.drop n) n
termination_by lst.length
decreasing_by
  push_neg at h
  have hne : lst ≠ [] := by simpa [List.isEmpty_iff] using h.1
  have h1 : 0 < lst.length := List.length_pos.mpr hne
  have h2 : 0 < n := Nat.pos_of_ne_zero h.2
  simp only [List.length_drop]
  omega

/-- seller.py main (lines 337-357), the reconciliation part: create_stocks is
called on the freshly fetched offer-id list and mutates it; create_prices is
then called on that same, now mutated, list (lines 345 and 349). -/
def seller_main_flow (watch_remnants : List SupplierRecord) (offer_ids : List String) :
    Option (List StockItem × List SellerPrice) :=
  match create_stocks watch_remnants offer_ids with
  | none => none
  | some (stocks, remaining) => some (stocks, create_prices watch_remnants remaining)

/-! ## Pagination (seller.py get_offer_ids, market.py get_offer_ids)

The paged listing endpoints are external collaborators; a run's worth of
responses is modelled as the finite list of pages the server would serve, in
the order the loop requests them.  An empty response list when the loop asks
for one more page models a server that can no longer answer (`none`). -/

/-- The `offer` sub-object of a market.py offer-mapping entry
(market.py line 184: `product.get("offer").get("shopSku")`). -/
structure MarketOffer where
  shopSku : String
deriving DecidableEq

/-- One element of `offerMappingEntries` in a market.py listing response. -/
structure MarketEntry where
  offer : MarketOffer
deriving DecidableEq

/-- One market.py get_product_list response: the entries plus
`paging.nextPageToken` (market.py lines 178-179). -/
structure MarketPage where
  offerMappingEntries : List MarketEntry
  nextPageToken : String
deriving DecidableEq

/-- One item of a seller.py get_product_list response (seller.py line 89:
`product.get("offer_id")`). -/
structure SellerProduct where
  offer_id : String
deriving DecidableEq

/-- One seller.py get_product_list response: items, the reported running
total, and the cursor for the next call (seller.py lines 82-84). -/
structure SellerPage where
  items : List SellerProduct
  total : Nat
  last_id : String
deriving DecidableEq

/-- The accumulation loop of market.py get_offer_ids (lines 174-181): extend
the accumulated entry list with the page's entries, then stop as soon as the
returned nextPageToken is falsy (empty). -/
def market_fetch_loop : List MarketPage → List MarketEntry → Option (List MarketEntry)
  | [], _ => none
  | p :: rest, acc =>
    let acc2 := acc ++ p.offerMappingEntries
    if p.nextPageToken = "" then some acc2
    else market_fetch_loop rest acc2

/-- market.py get_offer_ids (lines 157-185): accumulate the entries of all
pages, then project each entry to `offer.shopSku`. -/
def market_get_offer_ids (pages : List MarketPage) : Option (List String) :=
  (market_fetch_loop pages []).map (List.map fun e => e.offer.shopSku)

/-- The accumulation loop of seller.py get_offer_ids (lines 78-86): extend
the accumulated item list, then stop when the page's reported total equals
the accumulated length. -/
def seller_fetch_loop : List SellerPage → List SellerProduct → Option (List SellerProduct)
  | [], _ => none
  | p :: rest, acc =>
    let acc2 := acc ++ p.items
    if p.total = acc2.length then some acc2
    else seller_fetch_loop rest acc2

/-- seller.py get_offer_ids (lines 61-90): accumulate the items of all pages,
then project each to `offer_id`. -/
def seller_get_offer_ids (pages : List SellerPage) : Option (List String) :=
  (seller_fetch_loop pages []).map (List.map fun p => p.offer_id)

/-- A well-formed serving of market pages: the loop consumes every page and
stops exactly at the last one (every non-final token non-empty, final token
empty). -/
def market_pages_ok : List MarketPage → Bool
  | [] => false
  | [p] => p.nextPageToken == ""
  | p :: rest => (p.nextPageToken != "") && market_pages_ok rest

/-- A well-formed serving of seller pages relative to an already accumulated
count: the reported total differs from the accumulated count on every
non-final page and matches it exactly on the final one. -/
def seller_pages_ok : List SellerPage → Nat → Bool
  | [], _ => false
  | [p], acc => p.total == acc + p.items.length
  | p :: rest, acc => (p.total != acc + p.items.length) && seller_pages_ok rest (acc + p.items.length)

/-! ## Chunked uploads (seller.py / market.py upload_stocks, upload_prices)

A bulk-update endpoint is modelled by an oracle `respond` giving, for each
successive call index, either success (`none`) or the error the call raises
(`some e`).  The run of the upload loop yields the chunks for which a network
call was actually made, in order, and the error that aborted the loop, if
any: Python's for-loop stops at the first raised exception, which propagates
unchanged. -/

/-- The sequential chunk-submission loop (seller.py lines 331-332 and
346-347 and 323-324 and 350-351; market.py lines 359-360 and 423-424 and
445-446 and 454-455): submit each chunk in order; on the first failing call
stop, recording the attempted chunk and the propagated error. -/
def uploadRunFrom {α ε : Type} (respond : Nat → Option ε) :
    Nat → List (List α) → List (List α) × Option ε
  | _, [] => ([], none)
  | i, c :: cs =>
    match respond i with
    | some e => ([c], some e)
    | none =>
      let r := uploadRunFrom respond (i + 1) cs
      (c :: r.1, r.2)

/-- The network calls performed by the upload loop of seller.py
upload_stocks (lines 328-334): chunks of 100 stock entries. -/
def seller_upload_stocks_calls {ε : Type} (stocks : List StockItem)
    (respond : Nat → Option ε) : List (List StockItem) × Option ε :=
  uploadRunFrom respond 0 (divide stocks 100)

/-- The network calls performed by the upload loop of market.py
upload_stocks (lines 364-428): chunks of 2000 stock entries. -/
def market_upload_stocks_calls {ε : Type} (stocks : List MarketStockItem)
    (respond : Nat → Option ε) : List (List MarketStockItem) × Option ε :=
  uploadRunFrom respond 0 (divide stocks 2000)

/-- The network calls performed by the upload loop of seller.py
upload_prices (lines 320-325): chunks of 1000 price entries. -/
def seller_upload_prices_calls {ε : Type} (prices : List SellerPrice)
    (respond : Nat → Option ε) : List (List SellerPrice) × Option ε :=
  uploadRunFrom respond 0 (divide prices 1000)

/-- The network calls performed by the upload loop of market.py
upload_prices (lines 324-361): chunks of 500 price entries. -/
def market_upload_prices_calls {ε : Type} (prices : List MarketPrice)
    (respond : Nat → Option ε) : List (List MarketPrice) × Option ε :=
  uploadRunFrom respond 0 (divide prices 500)

/-! ## market.py main (lines 431-463) as a trace of calls -/

/-- The observable calls of one market.py main run.  `coroutineCreated`
marks the two bare `upload_prices(...)` expressions (lines 448 and 457):
calling an async function without awaiting it only builds a coroutine
object, so the body — and with it any price-update request — never runs. -/
inductive MarketCall where
  | offersGet (campaign : String)
  | stocksPut (campaign : String) (chunk : List MarketStockItem)
  | pricesPost (campaign : String) (chunk : List MarketPrice)
  | coroutineCreated (campaign : String)
deriving DecidableEq

/-- market.py main (lines 431-463) as the list of calls it performs, given
the resolved offer-id lists of the two campaigns.  A `none` from
create_stocks models the ValueError that the top-level handler catches,
ending the run at that point. -/
def market_main_calls (watch_remnants : List SupplierRecord)
    (fbsIds dbsIds : List String) (campaignFbs campaignDbs : String)
    (warehouseFbs warehouseDbs : Int) (date : String) : List MarketCall :=
  MarketCall.offersGet campaignFbs ::
    match market_create_stocks watch_remnants fbsIds warehouseFbs date with
    | none => []
    | some (stocksF, _) =>
      (divide stocksF 2000).map (MarketCall.stocksPut campaignFbs) ++
        MarketCall.coroutineCreated campaignFbs ::
          MarketCall.offersGet campaignDbs ::
            match market_create_stocks watch_remnants dbsIds warehouseDbs date with
            | none => []
            | some (stocksD, _) =>
              (divide stocksD 2000).map (MarketCall.stocksPut campaignDbs) ++
                [MarketCall.coroutineCreated campaignDbs]

/-- The precondition of the stock-reconciliation claims: a supplier record
whose code the marketplace knows carries a quantity that the
count-resolution branch of create_stocks can handle — ">10", "1", or a
literal integer string (seller.py lines 238-244, market.py lines 237-243). -/
def quantity_ok (w : SupplierRecord) : Bool :=
  w.quantity == ">10" || w.quantity == "1" || (pyInt w.quantity).isSome

/-! ## Theorems -/

theorem divide_flatten {α : Type} (lst : List α) (n : Nat) (hn : 0 < n) :
    (divide lst n).flatten = lst := by
  induction lst, n using divide.induct with
  | case1 lst n h =>
    rw [divide]
    simp only [dif_pos h, List.flatten_nil]
    rcases h with h | h
    · exact (List.isEmpty_iff.mp h).symm
    · omega
  | case2 lst n h ih =>
    rw [divide]
    simp only [dif_neg h, List.flatten_cons, ih hn]
    exact List.take_append_drop n lst

theorem divide_chunk_lengths {α : Type} (lst : List α) (n : Nat) (hn : 0 < n) :
    ∀ c ∈ divide lst n, 1 ≤ c.length ∧ c.length ≤ n := by
  induction lst, n using divide.induct with
  | case1 lst n h =>
    rw [divide]; simp [dif_pos h]
  | case2 lst n h ih =>
    rw [divide]
    simp only [dif_neg h]
    intro c hc
    rcases List.mem_cons.mp hc with rfl | hc2
    · push_neg at h
      have hne : lst ≠ [] := by simpa [List.isEmpty_iff] using h.1
      have h1 : 0 < lst.length := List.length_pos.mpr hne
      constructor
      · simp [List.length_take]; omega
      · simp [List.length_take]
    · exact ih hn c hc2

theorem divide_eq_nil_iff {α : Type} (lst : List α) (n : Nat) (hn : 0 < n) :
    divide lst n = [] ↔ lst = [] := by
  rw [divide]
  by_cases h : lst.isEmpty ∨ n = 0
  · simp [dif_pos h]
    rcases h with h | h
    · exact List.isEmpty_iff.mp h
    · omega
  · simp [dif_neg h]
    push_neg at h
    simpa [List.isEmpty_iff] using h.1

theorem divide_dropLast_lengths {α : Type} (lst : List α) (n : Nat) (hn : 0 < n) :
    ∀ c ∈ (divide lst n).dropLast, c.length = n := by
  induction lst, n using divide.induct with
  | case1 lst n h =>
    rw [divide]; simp [dif_pos h]
  | case2 lst n h ih =>
    rw [divide]
    simp only [dif_neg h]
    push_neg at h
    have hne : lst ≠ [] := by simpa [List.isEmpty_iff] using h.1
    have h1 : 0 < lst.length := List.length_pos.mpr hne
    by_cases hd : lst.drop n = []
    · have : divide (lst.drop n) n = [] := (divide_eq_nil_iff _ _ hn).mpr hd
      rw [this]
      simp
    · have hnenil : divide (lst.drop n) n ≠ [] := by
        intro hcon
        exact hd ((divide_eq_nil_iff _ _ hn).mp hcon)
      rw [List.dropLast_cons_of_ne_nil hnenil]
      intro c hc
      rcases List.mem_cons.mp hc with rfl | hc2
      · have hlen : n < lst.length := by
          rcases Nat.lt_or_ge n lst.length with h2 | h2
          · exact h2
          · exact absurd (List.drop_eq_nil_of_le h2) hd
        simp [List.length_take]
        omega
      · exact ih hn c hc2

/-- C4: for every list s and chunk size n > 0, concatenating the chunks of
divide(s, n) reproduces s; every chunk except possibly the last has length
exactly n; the last chunk has length between 1 and n; an empty s yields no
chunks. -/
theorem c4_divide_chunks {α : Type} (s : List α) (n : Nat) (h : 0 < n) :
    (divide s n).flatten = s
    ∧ (∀ c ∈ (divide s n).dropLast, c.length = n)
    ∧ (∀ c, (divide s n).getLast? = some c → 1 ≤ c.length ∧ c.length ≤ n)
    ∧ (s = [] → divide s n = []) := by
  refine ⟨divide_flatten s n h, divide_dropLast_lengths s n h, ?_, ?_⟩
  · intro c hc
    exact divide_chunk_lengths s n h c
      (List.mem_of_mem_getLast? (by simp [Option.mem_def, hc]))
  · intro hs
    subst hs
    rw [divide]
    simp

/-- C4 witness: the instance s = [1, 2, 3], n = 2. -/
theorem c4_divide_chunks_witness :
    (divide [1, 2, 3] 2).flatten = [1, 2, 3]
    ∧ (∀ c ∈ (divide [1, 2, 3] 2).dropLast, c.length = 2)
    ∧ (∀ c, (divide [1, 2, 3] 2).getLast? = some c → 1 ≤ c.length ∧ c.length ≤ 2)
    ∧ ([1, 2, 3] = ([] : List Nat) → divide [1, 2, 3] 2 = []) :=
  c4_divide_chunks [1, 2, 3] 2 (by decide)

theorem pySplit_headD (sep : Char) (l : List Char) :
    (pySplit sep l).headD [] = l.takeWhile (fun c => c != sep) := by
  induction l with
  | nil => rfl
  | cons c cs ih =>
    rw [pySplit]
    by_cases h : c = sep
    · subst h
      simp [List.takeWhile_cons]
    · have hbne : (c != sep) = true := by simp [h]
      rw [if_neg h]
      simp only [List.headD_cons, List.takeWhile_cons, hbne]
      exact congrArg (List.cons c) ih

/-- C5: price_conversion keeps the part of the price string before the first
"." (the whole string when no "." occurs) and deletes every non-digit
character from it; in particular the three examples of the spec. -/
theorem c5_price_conversion (p : String) :
    price_conversion p = String.mk ((p.data.takeWhile (fun c => c != '.')).filter Char.isDigit)
    ∧ price_conversion "5'990.00 руб." = "5990"
    ∧ price_conversion "100 руб" = "100"
    ∧ price_conversion "1'234.50 у.е." = "1234" := by
  refine ⟨?_, by decide, by decide, by decide⟩
  rw [price_conversion, pySplit_headD]

theorem stockCount_isSome {w : SupplierRecord} (h : quantity_ok w = true) :
    (stockCount w.quantity).isSome = true := by
  by_cases h1 : w.quantity = ">10"
  · simp [stockCount, h1]
  by_cases h2 : w.quantity = "1"
  · simp [stockCount, h2]
  · simp only [quantity_ok, Bool.or_eq_true, beq_iff_eq, h1, h2, false_or] at h
    simp [stockCount, h1, h2, h]

theorem stocksLoopCore_isSome {β : Type} (emit : String → Int → β) (ws : List SupplierRecord) :
    ∀ O : List String, (∀ w ∈ ws, w.code ∈ O → quantity_ok w = true) →
      (stocksLoopCore emit ws O).isSome = true := by
  induction ws with
  | nil => intro O h; simp [stocksLoopCore]
  | cons w ws ih =>
    intro O h
    rw [stocksLoopCore]
    by_cases hm : w.code ∈ O
    · rw [if_pos hm]
      have hq := stockCount_isSome (h w (by simp) hm)
      rcases Option.isSome_iff_exists.mp hq with ⟨c, hc⟩
      rw [hc]
      have hrec := ih (O.erase w.code)
        (fun w2 hw2 hin => h w2 (by simp [hw2]) (List.mem_of_mem_erase hin))
      rcases Option.isSome_iff_exists.mp hrec with ⟨p, hp⟩
      obtain ⟨st, rem⟩ := p
      rw [hp]
      rfl
    · rw [if_neg hm]
      exact ih O (fun w2 hw2 hin => h w2 (by simp [hw2]) hin)

theorem stocksLoopCore_perm {β : Type} (emit : String → Int → β) (sku : β → String)
    (hsku : ∀ c k, sku (emit c k) = c) (ws : List SupplierRecord) :
    ∀ O st rem, stocksLoopCore emit ws O = some (st, rem) →
      (st.map sku ++ rem).Perm O := by
  induction ws with
  | nil =>
    intro O st rem h
    simp only [stocksLoopCore, Option.some.injEq, Prod.mk.injEq] at h
    obtain ⟨rfl, rfl⟩ := h
    simp
  | cons w ws ih =>
    intro O st rem h
    rw [stocksLoopCore] at h
    by_cases hm : w.code ∈ O
    · rw [if_pos hm] at h
      cases hc : stockCount w.quantity with
      | none => rw [hc] at h; cases h
      | some c =>
        rw [hc] at h
        cases hrec : stocksLoopCore emit ws (O.erase w.code) with
        | none => rw [hrec] at h; cases h
        | some p =>
          obtain ⟨st2, rem2⟩ := p
          rw [hrec] at h
          simp only [Option.some.injEq, Prod.mk.injEq] at h
          obtain ⟨rfl, rfl⟩ := h
          have hperm := ih (O.erase w.code) st2 rem2 hrec
          simp only [List.map_cons, hsku, List.cons_append]
          exact (hperm.cons w.code).trans (List.perm_cons_erase hm).symm
    · rw [if_neg hm] at h
      exact ih O st rem h

theorem stocksLoopCore_mem_codes {β : Type} (emit : String → Int → β) (sku : β → String)
    (hsku : ∀ c k, sku (emit c k) = c) (ws : List SupplierRecord) :
    ∀ O st rem, stocksLoopCore emit ws O = some (st, rem) →
      ∀ e ∈ st, ∃ w ∈ ws, sku e = w.code := by
  induction ws with
  | nil =>
    intro O st rem h
    simp only [stocksLoopCore, Option.some.injEq, Prod.mk.injEq] at h
    obtain ⟨rfl, rfl⟩ := h
    simp
  | cons w ws ih =>
    intro O st rem h
    rw [stocksLoopCore] at h
    by_cases hm : w.code ∈ O
    · rw [if_pos hm] at h
      cases hc : stockCount w.quantity with
      | none => rw [hc] at h; cases h
      | some c =>
        rw [hc] at h
        cases hrec : stocksLoopCore emit ws (O.erase w.code) with
        | none => rw [hrec] at h; cases h
        | some p =>
          obtain ⟨st2, rem2⟩ := p
          rw [hrec] at h
          simp only [Option.some.injEq, Prod.mk.injEq] at h
          obtain ⟨rfl, rfl⟩ := h
          intro e he
          rcases List.mem_cons.mp he with rfl | he2
          · exact ⟨w, by simp, hsku w.code c⟩
          · rcases ih (O.erase w.code) st2 rem2 hrec e he2 with ⟨w2, hw2, hsk⟩
            exact ⟨w2, by simp [hw2], hsk⟩
    · rw [if_neg hm] at h
      intro e he
      rcases ih O st rem h e he with ⟨w2, hw2, hsk⟩
      exact ⟨w2, by simp [hw2], hsk⟩

theorem stocksLoopCore_rem_filter {β : Type} (emit : String → Int → β)
    (ws : List SupplierRecord) :
    ∀ O st rem, O.Nodup → stocksLoopCore emit ws O = some (st, rem) →
      rem = O.filter (fun o => ws.all (fun w => w.code != o)) := by
  induction ws with
  | nil =>
    intro O st rem hnd h
    simp only [stocksLoopCore, Option.some.injEq, Prod.mk.injEq] at h
    obtain ⟨rfl, rfl⟩ := h
    simp
  | cons w ws ih =>
    intro O st rem hnd h
    rw [stocksLoopCore] at h
    by_cases hm : w.code ∈ O
    · rw [if_pos hm] at h
      cases hc : stockCount w.quantity with
      | none => rw [hc] at h; cases h
      | some c =>
        rw [hc] at h
        cases hrec : stocksLoopCore emit ws (O.erase w.code) with
        | none => rw [hrec] at h; cases h
        | some p =>
          obtain ⟨st2, rem2⟩ := p
          rw [hrec] at h
          simp only [Option.some.injEq, Prod.mk.injEq] at h
          obtain ⟨rfl, rfl⟩ := h
          have := ih (O.erase w.code) st2 rem2 (hnd.erase w.code) hrec
          rw [this, hnd.erase_eq_filter w.code, List.filter_filter]
          apply List.filter_congr
          intro o _
          simp only [List.all_cons, Bool.and_comm, bne, Bool.beq_comm]
    · rw [if_neg hm] at h
      rw [ih O st rem hnd h]
      apply List.filter_congr
      intro o ho
      have hne : w.code ≠ o := fun hcon => hm (hcon ▸ ho)
      simp [List.all_cons, hne]


theorem create_stocks_decomp (wr : List SupplierRecord) (O : List String)
    (st : List StockItem) (rem : List String) (h : create_stocks wr O = some (st, rem)) :
    ∃ stm, stocksLoopCore (fun code stock => (⟨code, stock⟩ : StockItem)) wr O = some (stm, rem)
      ∧ st = stm ++ rem.map (fun o => ⟨o, 0⟩) := by
  rw [create_stocks] at h
  cases hc : stocksLoopCore (fun code stock => (⟨code, stock⟩ : StockItem)) wr O with
  | none => rw [hc] at h; cases h
  | some p =>
    obtain ⟨stm, rem2⟩ := p
    rw [hc] at h
    simp only [Option.map_some', Option.some.injEq, Prod.mk.injEq] at h
    obtain ⟨h1, rfl⟩ := h
    exact ⟨stm, rfl, h1.symm⟩

theorem market_create_stocks_decomp (wr : List SupplierRecord) (O : List String)
    (wid : Int) (date : String) (st : List MarketStockItem) (rem : List String)
    (h : market_create_stocks wr O wid date = some (st, rem)) :
    ∃ stm, stocksLoopCore (marketStockItem wid date) wr O = some (stm, rem)
      ∧ st = stm ++ rem.map (fun o => marketStockItem wid date o 0) := by
  rw [market_create_stocks] at h
  cases hc : stocksLoopCore (marketStockItem wid date) wr O with
  | none => rw [hc] at h; cases h
  | some p =>
    obtain ⟨stm, rem2⟩ := p
    rw [hc] at h
    simp only [Option.map_some', Option.some.injEq, Prod.mk.injEq] at h
    obtain ⟨h1, rfl⟩ := h
    exact ⟨stm, rfl, h1.symm⟩

/-- C1: for every offer-id list O and supplier-record list R in which each
record whose code is in O carries a quantity of ">10", "1" or a literal
integer string, stock reconciliation succeeds on both marketplaces and the
set of offer ids appearing in its output equals exactly the set of ids in O:
no additions, no omissions. -/
theorem c1_stock_reconciliation_id_set (wr : List SupplierRecord) (O : List String)
    (wid : Int) (date : String)
    (hq : ∀ w ∈ wr, w.code ∈ O → quantity_ok w = true) :
    (∃ st rem, create_stocks wr O = some (st, rem)
      ∧ ∀ i, i ∈ st.map (fun e => e.offer_id) ↔ i ∈ O)
    ∧ (∃ st rem, market_create_stocks wr O wid date = some (st, rem)
      ∧ ∀ i, i ∈ st.map (fun e => e.sku) ↔ i ∈ O) := by
  constructor
  · rcases Option.isSome_iff_exists.mp
      (stocksLoopCore_isSome (fun code stock => (⟨code, stock⟩ : StockItem)) wr O hq) with ⟨p, hp⟩
    obtain ⟨stm, rem⟩ := p
    refine ⟨stm ++ rem.map (fun o => ⟨o, 0⟩), rem, by rw [create_stocks, hp]; rfl, ?_⟩
    intro i
    have hperm := stocksLoopCore_perm (fun code stock => (⟨code, stock⟩ : StockItem))
      (fun e => e.offer_id) (fun c k => rfl) wr O stm rem hp
    have hmap : (stm ++ rem.map (fun o => (⟨o, 0⟩ : StockItem))).map (fun e => e.offer_id)
        = stm.map (fun e => e.offer_id) ++ rem := by
      rw [List.map_append, List.map_map]
      rw [show ((fun e : StockItem => e.offer_id) ∘ fun o => (⟨o, 0⟩ : StockItem))
          = fun o : String => o from rfl, List.map_id']
    rw [hmap]
    exact hperm.mem_iff
  · rcases Option.isSome_iff_exists.mp
      (stocksLoopCore_isSome (marketStockItem wid date) wr O hq) with ⟨p, hp⟩
    obtain ⟨stm, rem⟩ := p
    refine ⟨stm ++ rem.map (fun o => marketStockItem wid date o 0), rem,
      by rw [market_create_stocks, hp]; rfl, ?_⟩
    intro i
    have hperm := stocksLoopCore_perm (marketStockItem wid date)
      (fun e => e.sku) (fun c k => rfl) wr O stm rem hp
    have hmap : (stm ++ rem.map (fun o => marketStockItem wid date o 0)).map (fun e => e.sku)
        = stm.map (fun e => e.sku) ++ rem := by
      rw [List.map_append, List.map_map]
      rw [show ((fun e : MarketStockItem => e.sku) ∘ fun o => marketStockItem wid date o 0)
          = fun o : String => o from rfl, List.map_id']
    rw [hmap]
    exact hperm.mem_iff

/-- C1 witness: R = [{A, ">10"}], O = ["A", "B"]. -/
theorem c1_stock_reconciliation_id_set_witness :
    ((∃ st rem, create_stocks [⟨"A", ">10", "p"⟩] ["A", "B"] = some (st, rem)
      ∧ ∀ i, i ∈ st.map (fun e => e.offer_id) ↔ i ∈ ["A", "B"])
    ∧ (∃ st rem, market_create_stocks [⟨"A", ">10", "p"⟩] ["A", "B"] 42 "D" = some (st, rem)
      ∧ ∀ i, i ∈ st.map (fun e => e.sku) ↔ i ∈ ["A", "B"])) :=
  c1_stock_reconciliation_id_set [⟨"A", ">10", "p"⟩] ["A", "B"] 42 "D" (by decide)



theorem pricesLoopSt_snd (ws : List SupplierRecord) :
    ∀ (acc : List SellerPrice) (ids : List String), (pricesLoopSt ws acc ids).2 = ids := by
  induction ws with
  | nil => intro acc ids; rfl
  | cons w ws ih =>
    intro acc ids
    rw [pricesLoopSt]
    by_cases hm : w.code ∈ ids
    · rw [if_pos hm]; exact ih _ ids
    · rw [if_neg hm]; exact ih acc ids

/-- C8: when create_stocks returns, the caller-supplied offer-id list (a
duplicate-free marketplace catalog, per the data model) holds exactly the
ids that had no matching supplier record, in order; and the create_prices
loop leaves its offer-id list argument unchanged. -/
theorem c8_mutation_contract (wr : List SupplierRecord) (O : List String)
    (st : List StockItem) (rem : List String)
    (hnd : O.Nodup) (h : create_stocks wr O = some (st, rem)) :
    rem = O.filter (fun o => wr.all (fun w => w.code != o))
    ∧ ∀ ids : List String, (create_pricesSt wr ids).2 = ids := by
  constructor
  · rcases create_stocks_decomp wr O st rem h with ⟨stm, hcore, _⟩
    exact stocksLoopCore_rem_filter _ wr O stm rem hnd hcore
  · intro ids
    rw [create_pricesSt]
    exact pricesLoopSt_snd wr [] ids

/-- C8 witness: R = [{A, "1"}], O = ["A", "B"] leaves ["B"]; the price loop
leaves ["X", "Y"] untouched. -/
theorem c8_mutation_contract_witness :
    (["B"] = ["A", "B"].filter
        (fun o => [(⟨"A", "1", "p"⟩ : SupplierRecord)].all (fun w => w.code != o)))
    ∧ (create_pricesSt [(⟨"A", "1", "p"⟩ : SupplierRecord)] ["X", "Y"]).2 = ["X", "Y"] := by
  have h := c8_mutation_contract [⟨"A", "1", "p"⟩] ["A", "B"]
    [⟨"A", 0⟩, ⟨"B", 0⟩] ["B"] (by decide) (by decide)
  exact ⟨h.1, h.2 ["X", "Y"]⟩

/-- C7: the resolved count of a matched supplier record is 100 for quantity
">10", 0 for "1", and otherwise the parsed integer of the quantity string
(so "7" parses to 7 and "0" to 0); a matched record's entry in create_stocks
carries exactly that count; and every output entry whose id matches no
supplier record carries count 0, on both marketplaces. -/
theorem c7_count_resolution :
    (stockCount ">10" = some 100)
    ∧ (stockCount "1" = some 0)
    ∧ (∀ q : String, q ≠ ">10" → q ≠ "1" → stockCount q = pyInt q)
    ∧ (pyInt "7" = some 7 ∧ pyInt "0" = some 0)
    ∧ (∀ (w : SupplierRecord) (O : List String) (k : Int), w.code ∈ O →
        stockCount w.quantity = some k →
        create_stocks [w] O
          = some (⟨w.code, k⟩ :: (O.erase w.code).map (fun o => ⟨o, 0⟩), O.erase w.code))
    ∧ (∀ (wr : List SupplierRecord) (O : List String) (st : List StockItem) (rem : List String),
        create_stocks wr O = some (st, rem) →
        ∀ e ∈ st, (∀ w ∈ wr, w.code ≠ e.offer_id) → e.stock = 0)
    ∧ (∀ (wr : List SupplierRecord) (O : List String) (wid : Int) (date : String)
        (st : List MarketStockItem) (rem : List String),
        market_create_stocks wr O wid date = some (st, rem) →
        ∀ e ∈ st, (∀ w ∈ wr, w.code ≠ e.sku) → e.items.map (fun it => it.count) = [0]) := by
  refine ⟨rfl, rfl, ?_, ⟨by decide, by decide⟩, ?_, ?_, ?_⟩
  · intro q h1 h2
    simp [stockCount, h1, h2]
  · intro w O k hm hk
    rw [create_stocks, stocksLoopCore, if_pos hm, hk, stocksLoopCore]
    rfl
  · intro wr O st rem h e he hnc
    rcases create_stocks_decomp wr O st rem h with ⟨stm, hcore, rfl⟩
    rcases List.mem_append.mp he with hl | hr
    · rcases stocksLoopCore_mem_codes _ (fun e => e.offer_id) (fun c k => rfl)
        wr O stm rem hcore e hl with ⟨w, hw, hsk⟩
      exact absurd hsk.symm (hnc w hw)
    · rcases List.mem_map.mp hr with ⟨o, _, rfl⟩
      rfl
  · intro wr O wid date st rem h e he hnc
    rcases market_create_stocks_decomp wr O wid date st rem h with ⟨stm, hcore, rfl⟩
    rcases List.mem_append.mp he with hl | hr
    · rcases stocksLoopCore_mem_codes _ (fun e => e.sku) (fun c k => rfl)
        wr O stm rem hcore e hl with ⟨w, hw, hsk⟩
      exact absurd hsk.symm (hnc w hw)
    · rcases List.mem_map.mp hr with ⟨o, _, rfl⟩
      rfl

/-- C7 witness: the literal-integer branch at "7" and a full create_stocks
run with a ">10" record plus a zero-filled id. -/
theorem c7_count_resolution_witness :
    stockCount "7" = pyInt "7"
    ∧ create_stocks [⟨"A", ">10", "p"⟩] ["A", "B"]
        = some ([⟨"A", 100⟩, ⟨"B", 0⟩], ["B"]) := by
  have h := c7_count_resolution
  refine ⟨h.2.2.1 "7" (by decide) (by decide), ?_⟩
  have h5 := h.2.2.2.2.1 ⟨"A", ">10", "p"⟩ ["A", "B"] 100 (by decide) (by decide)
  simpa using h5



/-- C2 (code bug): on supplier feed [{A, ">10", "100.00 x"}, {B, "1",
"50.00 x"}] and fetched offer ids ["A", "B", "C"], seller main's sequencing
produces the claimed stock output [{A,100},{B,0},{C,0}] but an empty price
output: create_stocks mutates the shared offer-id list down to ["C"], and
main reuses that mutated list for create_prices.  The claimed price output
[{A,100},{B,50}] is what create_prices yields on a fresh ["A","B","C"]. -/
theorem c2_seller_main_price_payload_empty :
    seller_main_flow [⟨"A", ">10", "100.00 x"⟩, ⟨"B", "1", "50.00 x"⟩] ["A", "B", "C"]
      = some ([⟨"A", 100⟩, ⟨"B", 0⟩, ⟨"C", 0⟩], [])
    ∧ create_prices [⟨"A", ">10", "100.00 x"⟩, ⟨"B", "1", "50.00 x"⟩] ["A", "B", "C"]
      = [⟨"UNKNOWN", "RUB", "A", "0", "100"⟩, ⟨"UNKNOWN", "RUB", "B", "0", "50"⟩] :=
  ⟨by decide, by decide⟩

theorem pricesLoopSt_fst (ws : List SupplierRecord) :
    ∀ (acc : List SellerPrice) (ids : List String),
      (pricesLoopSt ws acc ids).1
        = acc ++ (ws.filter (fun w => decide (w.code ∈ ids))).map sellerPriceOf := by
  induction ws with
  | nil => intro acc ids; simp [pricesLoopSt]
  | cons w ws ih =>
    intro acc ids
    rw [pricesLoopSt]
    by_cases hm : w.code ∈ ids
    · rw [if_pos hm, ih, List.filter_cons_of_pos (by simpa using hm)]
      simp
    · rw [if_neg hm, ih, List.filter_cons_of_neg (by simpa using hm)]

theorem marketPricesLoop_complete (ids : List String) (ws : List SupplierRecord)
    (hp : ∀ w ∈ ws, w.code ∈ ids → (pyInt (price_conversion w.price)).isSome = true) :
    ∃ ps, marketPricesLoop ws ids = some ps
      ∧ ps.map (fun p => p.id)
        = (ws.filter (fun w => decide (w.code ∈ ids))).map (fun w => w.code) := by
  induction ws with
  | nil => exact ⟨[], rfl, rfl⟩
  | cons w ws ih =>
    rcases ih (fun w2 hw2 => hp w2 (by simp [hw2])) with ⟨ps, hps, hmap⟩
    rw [marketPricesLoop]
    by_cases hm : w.code ∈ ids
    · rw [if_pos hm]
      rcases Option.isSome_iff_exists.mp (hp w (by simp) hm) with ⟨v, hv⟩
      rw [show marketPriceOf w = some ⟨w.code, ⟨v, "RUR"⟩⟩ from by rw [marketPriceOf, hv]; rfl]
      refine ⟨⟨w.code, ⟨v, "RUR"⟩⟩ :: ps, by rw [hps]; rfl, ?_⟩
      rw [List.filter_cons_of_pos (by simpa using hm)]
      simp [hmap]
    · rw [if_neg hm]
      exact ⟨ps, hps, by rw [hmap, List.filter_cons_of_neg (by simpa using hm)]⟩

/-- C6: price reconciliation emits exactly one entry per supplier record
whose code is in the offer-id list, in record order, and no entry for an
offer id without a matching supplier record; every emitted offer id occurs
both in the supplier feed and in the id list.  The market variant needs the
matched prices to survive int(price_conversion(...)), and then emits the
same id sequence. -/
theorem c6_price_reconciliation_matching (wr : List SupplierRecord) (O : List String)
    (hp : ∀ w ∈ wr, w.code ∈ O → (pyInt (price_conversion w.price)).isSome = true) :
    ((create_prices wr O).map (fun p => p.offer_id)
        = (wr.filter (fun w => decide (w.code ∈ O))).map (fun w => w.code))
    ∧ (∀ p ∈ create_prices wr O, p.offer_id ∈ O ∧ ∃ w ∈ wr, w.code = p.offer_id)
    ∧ (∃ ps, market_create_prices wr O = some ps
        ∧ ps.map (fun p => p.id)
          = (wr.filter (fun w => decide (w.code ∈ O))).map (fun w => w.code)) := by
  have hfst : (create_prices wr O).map (fun p => p.offer_id)
      = (wr.filter (fun w => decide (w.code ∈ O))).map (fun w => w.code) := by
    rw [create_prices, create_pricesSt, pricesLoopSt_fst, List.nil_append, List.map_map]
    rfl
  refine ⟨hfst, ?_, marketPricesLoop_complete O wr hp⟩
  intro p hpmem
  have hid : p.offer_id ∈ (wr.filter (fun w => decide (w.code ∈ O))).map (fun w => w.code) := by
    rw [← hfst]
    exact List.mem_map_of_mem _ hpmem
  rcases List.mem_map.mp hid with ⟨w, hwf, hcode⟩
  have hw := List.mem_filter.mp hwf
  exact ⟨by rw [← hcode]; exact of_decide_eq_true hw.2, w, hw.1, hcode⟩

/-- C6 witness: R = [{A, price "9.5 x"}], O = ["A", "B"]. -/
theorem c6_price_reconciliation_matching_witness :
    ((create_prices [⟨"A", ">10", "9.5 x"⟩] ["A", "B"]).map (fun p => p.offer_id)
        = ([(⟨"A", ">10", "9.5 x"⟩ : SupplierRecord)].filter
            (fun w => decide (w.code ∈ ["A", "B"]))).map (fun w => w.code))
    ∧ (∀ p ∈ create_prices [⟨"A", ">10", "9.5 x"⟩] ["A", "B"],
        p.offer_id ∈ ["A", "B"]
          ∧ ∃ w ∈ [(⟨"A", ">10", "9.5 x"⟩ : SupplierRecord)], w.code = p.offer_id)
    ∧ (∃ ps, market_create_prices [⟨"A", ">10", "9.5 x"⟩] ["A", "B"] = some ps
        ∧ ps.map (fun p => p.id)
          = ([(⟨"A", ">10", "9.5 x"⟩ : SupplierRecord)].filter
              (fun w => decide (w.code ∈ ["A", "B"]))).map (fun w => w.code)) :=
  c6_price_reconciliation_matching [⟨"A", ">10", "9.5 x"⟩] ["A", "B"] (by decide)



theorem uploadRunFrom_error_prefix {α ε : Type} (respond : Nat → Option ε) :
    ∀ (chunks : List (List α)) (i k : Nat) (e : ε),
      (∀ j, j < k → respond (i + j) = none) → respond (i + k) = some e →
      k < chunks.length →
      uploadRunFrom respond i chunks = (chunks.take (k + 1), some e) := by
  intro chunks
  induction chunks with
  | nil => intro i k e h1 h2 hk; simp at hk
  | cons c cs ih =>
    intro i k e h1 h2 hk
    cases k with
    | zero =>
      rw [uploadRunFrom]
      rw [show respond i = some e from by simpa using h2]
      rfl
    | succ k2 =>
      rw [uploadRunFrom]
      rw [show respond i = none from by simpa using h1 0 (Nat.succ_pos k2)]
      have hrec := ih (i + 1) k2 e
        (fun j hj => by
          have hh := h1 (j + 1) (Nat.succ_lt_succ hj)
          rw [show i + 1 + j = i + (j + 1) from by omega]
          exact hh)
        (by
          rw [show i + 1 + k2 = i + (k2 + 1) from by omega]
          exact h2)
        (by simpa using hk)
      simp [hrec, List.take_succ_cons]

/-- C9: in a chunked upload where every network call before the k-th
succeeds and the k-th raises e, the calls actually made are exactly the
chunks up to and including the k-th (earlier chunks submitted, the k-th
attempted, later chunks never submitted) and the loop's outcome is that same
error e, unchanged — no retry, no rollback, no compensating call; shown for
all four chunked uploads: seller upload_stocks (chunks of 100), market
upload_stocks (2000), seller upload_prices (1000) and market upload_prices
(500). -/
theorem c9_chunked_upload_error {ε : Type} (sstocks : List StockItem)
    (mstocks : List MarketStockItem) (sprices : List SellerPrice)
    (mprices : List MarketPrice)
    (respondS respondM respondSP respondMP : Nat → Option ε)
    (kS kM kSP kMP : Nat) (eS eM eSP eMP : ε)
    (h1 : ∀ j, j < kS → respondS j = none) (h2 : respondS kS = some eS)
    (h3 : kS < (divide sstocks 100).length)
    (h4 : ∀ j, j < kM → respondM j = none) (h5 : respondM kM = some eM)
    (h6 : kM < (divide mstocks 2000).length)
    (h7 : ∀ j, j < kSP → respondSP j = none) (h8 : respondSP kSP = some eSP)
    (h9 : kSP < (divide sprices 1000).length)
    (h10 : ∀ j, j < kMP → respondMP j = none) (h11 : respondMP kMP = some eMP)
    (h12 : kMP < (divide mprices 500).length) :
    seller_upload_stocks_calls sstocks respondS = ((divide sstocks 100).take (kS + 1), some eS)
    ∧ market_upload_stocks_calls mstocks respondM
      = ((divide mstocks 2000).take (kM + 1), some eM)
    ∧ seller_upload_prices_calls sprices respondSP
      = ((divide sprices 1000).take (kSP + 1), some eSP)
    ∧ market_upload_prices_calls mprices respondMP
      = ((divide mprices 500).take (kMP + 1), some eMP) := by
  refine ⟨?_, ?_, ?_, ?_⟩
  · rw [seller_upload_stocks_calls]
    exact uploadRunFrom_error_prefix respondS (divide sstocks 100) 0 kS eS
      (fun j hj => by simpa using h1 j hj) (by simpa using h2) h3
  · rw [market_upload_stocks_calls]
    exact uploadRunFrom_error_prefix respondM (divide mstocks 2000) 0 kM eM
      (fun j hj => by simpa using h4 j hj) (by simpa using h5) h6
  · rw [seller_upload_prices_calls]
    exact uploadRunFrom_error_prefix respondSP (divide sprices 1000) 0 kSP eSP
      (fun j hj => by simpa using h7 j hj) (by simpa using h8) h9
  · rw [market_upload_prices_calls]
    exact uploadRunFrom_error_prefix respondMP (divide mprices 500) 0 kMP eMP
      (fun j hj => by simpa using h10 j hj) (by simpa using h11) h12

/-- C9 witness: a single chunk whose very first call fails, for each of the
four upload loops. -/
theorem c9_chunked_upload_error_witness :
    seller_upload_stocks_calls [(⟨"A", 5⟩ : StockItem)] (fun _ => some "boom")
      = ((divide [(⟨"A", 5⟩ : StockItem)] 100).take 1, some "boom")
    ∧ market_upload_stocks_calls [marketStockItem 1 "D" "A" 5] (fun _ => some "boom")
      = ((divide [marketStockItem 1 "D" "A" 5] 2000).take 1, some "boom")
    ∧ seller_upload_prices_calls [(⟨"UNKNOWN", "RUB", "A", "0", "5"⟩ : SellerPrice)]
        (fun _ => some "boom")
      = ((divide [(⟨"UNKNOWN", "RUB", "A", "0", "5"⟩ : SellerPrice)] 1000).take 1, some "boom")
    ∧ market_upload_prices_calls [(⟨"A", ⟨5, "RUR"⟩⟩ : MarketPrice)] (fun _ => some "boom")
      = ((divide [(⟨"A", ⟨5, "RUR"⟩⟩ : MarketPrice)] 500).take 1, some "boom") :=
  c9_chunked_upload_error [⟨"A", 5⟩] [marketStockItem 1 "D" "A" 5]
    [⟨"UNKNOWN", "RUB", "A", "0", "5"⟩] [⟨"A", ⟨5, "RUR"⟩⟩]
    (fun _ => some "boom") (fun _ => some "boom") (fun _ => some "boom") (fun _ => some "boom")
    0 0 0 0 "boom" "boom" "boom" "boom"
    (fun j hj => absurd hj (Nat.not_lt_zero j)) rfl (by simp [divide])
    (fun j hj => absurd hj (Nat.not_lt_zero j)) rfl (by simp [divide])
    (fun j hj => absurd hj (Nat.not_lt_zero j)) rfl (by simp [divide])
    (fun j hj => absurd hj (Nat.not_lt_zero j)) rfl (by simp [divide])



theorem market_fetch_loop_complete (pages : List MarketPage) :
    ∀ acc, market_pages_ok pages = true →
      market_fetch_loop pages acc
        = some (acc ++ (pages.map (fun p => p.offerMappingEntries)).flatten) := by
  induction pages with
  | nil => intro acc h; simp [market_pages_ok] at h
  | cons p rest ih =>
    intro acc h
    cases rest with
    | nil =>
      have ht : p.nextPageToken = "" := by simpa [market_pages_ok] using h
      rw [market_fetch_loop, if_pos ht]
      simp
    | cons q rest2 =>
      have h2 : p.nextPageToken ≠ "" ∧ market_pages_ok (q :: rest2) = true := by
        simpa [market_pages_ok] using h
      rw [market_fetch_loop, if_neg h2.1, ih _ h2.2]
      simp

theorem seller_fetch_loop_complete (pages : List SellerPage) :
    ∀ acc, seller_pages_ok pages acc.length = true →
      seller_fetch_loop pages acc = some (acc ++ (pages.map (fun p => p.items)).flatten) := by
  induction pages with
  | nil => intro acc h; simp [seller_pages_ok] at h
  | cons p rest ih =>
    intro acc h
    cases rest with
    | nil =>
      have ht : p.total = acc.length + p.items.length := by simpa [seller_pages_ok] using h
      rw [seller_fetch_loop, if_pos (by simp [ht])]
      simp
    | cons q rest2 =>
      have h2 : p.total ≠ acc.length + p.items.length
          ∧ seller_pages_ok (q :: rest2) (acc.length + p.items.length) = true := by
        simpa [seller_pages_ok] using h
      rw [seller_fetch_loop, if_neg (by simp [h2.1])]
      rw [ih (acc ++ p.items) (by simpa [List.length_append] using h2.2)]
      simp

/-- C10: against a well-formed paged listing, get_offer_ids accumulates the
ids of all pages in page order; market.py stops exactly when the returned
next-page token is empty, seller.py stops exactly when the accumulated item
count equals the reported total. -/
theorem c10_pagination_accumulates (mpages : List MarketPage) (spages : List SellerPage)
    (hm : market_pages_ok mpages = true) (hs : seller_pages_ok spages 0 = true) :
    market_get_offer_ids mpages
      = some (((mpages.map (fun p => p.offerMappingEntries)).flatten).map
          (fun en => en.offer.shopSku))
    ∧ seller_get_offer_ids spages
      = some (((spages.map (fun p => p.items)).flatten).map (fun it => it.offer_id)) := by
  constructor
  · rw [market_get_offer_ids, market_fetch_loop_complete mpages [] hm]
    simp
  · rw [seller_get_offer_ids, seller_fetch_loop_complete spages [] hs]
    simp

/-- C10 witness: a 3-page listing of sizes 2, 2, 1 yields exactly 5 ids in
page order, on both marketplaces. -/
theorem c10_pagination_accumulates_witness :
    market_get_offer_ids
        [⟨[⟨⟨"a"⟩⟩, ⟨⟨"b"⟩⟩], "t1"⟩, ⟨[⟨⟨"c"⟩⟩, ⟨⟨"d"⟩⟩], "t2"⟩, ⟨[⟨⟨"e"⟩⟩], ""⟩]
      = some ["a", "b", "c", "d", "e"]
    ∧ seller_get_offer_ids
        [⟨[⟨"a"⟩, ⟨"b"⟩], 5, "x"⟩, ⟨[⟨"c"⟩, ⟨"d"⟩], 5, "y"⟩, ⟨[⟨"e"⟩], 5, "z"⟩]
      = some ["a", "b", "c", "d", "e"] := by
  have h := c10_pagination_accumulates
    [⟨[⟨⟨"a"⟩⟩, ⟨⟨"b"⟩⟩], "t1"⟩, ⟨[⟨⟨"c"⟩⟩, ⟨⟨"d"⟩⟩], "t2"⟩, ⟨[⟨⟨"e"⟩⟩], ""⟩]
    [⟨[⟨"a"⟩, ⟨"b"⟩], 5, "x"⟩, ⟨[⟨"c"⟩, ⟨"d"⟩], 5, "y"⟩, ⟨[⟨"e"⟩], 5, "z"⟩]
    (by decide) (by decide)
  exact ⟨by rw [h.1]; rfl, by rw [h.2]; rfl⟩



/-- C3: market.py main never invokes the bulk price-update endpoint for
either campaign: the two `upload_prices(...)` expressions create coroutines
that are never awaited, so for every input the run's call trace holds only
offer-id fetches and stock-update calls — no pricesPost event ever — while
the coroutine-creation points are reached whenever the run gets that far. -/
theorem c3_market_main_never_posts_prices (wr : List SupplierRecord)
    (fbsIds dbsIds : List String) (cf cd : String) (wf wd : Int) (date : String) :
    (∀ camp chunk,
      MarketCall.pricesPost camp chunk ∉ market_main_calls wr fbsIds dbsIds cf cd wf wd date)
    ∧ ((market_create_stocks wr fbsIds wf date).isSome = true →
        MarketCall.coroutineCreated cf ∈ market_main_calls wr fbsIds dbsIds cf cd wf wd date)
    ∧ ((market_create_stocks wr fbsIds wf date).isSome = true →
       (market_create_stocks wr dbsIds wd date).isSome = true →
        MarketCall.coroutineCreated cd ∈ market_main_calls wr fbsIds dbsIds cf cd wf wd date) := by
  cases hf : market_create_stocks wr fbsIds wf date with
  | none =>
    refine ⟨?_, ?_, ?_⟩
    · intro camp chunk hc
      simp [market_main_calls, hf] at hc
    · intro hsf
      simp at hsf
    · intro hsf _
      simp at hsf
  | some pf =>
    obtain ⟨stF, remF⟩ := pf
    cases hd2 : market_create_stocks wr dbsIds wd date with
    | none =>
      refine ⟨?_, ?_, ?_⟩
      · intro camp chunk hc
        simp [market_main_calls, hf, hd2] at hc
      · intro _
        simp [market_main_calls, hf, hd2]
      · intro _ hsd
        simp at hsd
    | some pd =>
      obtain ⟨stD, remD⟩ := pd
      refine ⟨?_, ?_, ?_⟩
      · intro camp chunk hc
        simp [market_main_calls, hf, hd2] at hc
      · intro _
        simp [market_main_calls, hf, hd2]
      · intro _ _
        simp [market_main_calls, hf, hd2]

/-- C3 witness: an empty feed and empty catalogs. -/
theorem c3_market_main_never_posts_prices_witness :
    MarketCall.pricesPost "F" [] ∉ market_main_calls [] [] [] "F" "D" 1 2 "T"
    ∧ MarketCall.coroutineCreated "F" ∈ market_main_calls [] [] [] "F" "D" 1 2 "T"
    ∧ MarketCall.coroutineCreated "D" ∈ market_main_calls [] [] [] "F" "D" 1 2 "T" := by
  have h := c3_market_main_never_posts_prices [] [] [] "F" "D" 1 2 "T"
  exact ⟨h.1 "F" [], h.2.1 (by decide), h.2.2 (by decide) (by decide)⟩


end SellerApis
